import Mathlib

/-
Verification development for the double-hit space-point builder
(src/Core/src/Tools/DoubleHitSpacePointBuilder.cpp).

Shallow embedding conventions:
* C++ doubles are modelled as exact real numbers; division is the total
  Lean division (x / 0 = 0).  Wherever a claim depends on a division, the
  corresponding theorem carries an explicit nonzero hypothesis for the
  denominator, so the real-number model and IEEE semantics agree on the
  inputs covered by the theorem.
* Hits are abstract measurements; the external Geometry Accessor is modelled
  by a function assigning each hit its surface identifier and its bin
  indices.  The occupancy matrix built by sortHits is modelled as an index
  function together with its two dimensions.
* The per-candidate strip endpoints (produced by endsOfCluster through the
  external surface transform) are taken as the inputs of the solver.
-/

/- ===================== Hit clustering (clusterSpacePoints) ============== -/

/-- Identifier of a strip hit (PlanarModuleCluster pointer in the source). -/
abbrev Hit := Nat

/-- View of a hit through the external Geometry Accessor: the surface it
lies on and its bin indices in the surface segmentation. -/
structure HitGeom where
  surface : Nat
  binX : Nat
  binY : Nat
deriving DecidableEq

/-- The matrix of hits built by sortHits, modelled as its two dimensions
(binData[0].bins() and binData[1].bins()) plus an index function.  An
unoccupied cell holds none (nullptr in the source). -/
structure HitMatrix where
  nX : Nat
  nY : Nat
  cell : Nat → Nat → Option Hit

/-- Sequential fill of the matrix: each hit is written at its bin pair,
later hits overwriting earlier ones in the same cell, exactly as the
assignment bins[bin.first][bin.second] = hits[iHits] does. -/
def fillMatrix (geo : Hit → HitGeom) (hits : List Hit) : Nat → Nat → Option Hit :=
  hits.foldl
    (fun f h => fun x y => if x = (geo h).binX ∧ y = (geo h).binY then some h else f x y)
    (fun _ _ => none)

/-- sortHits: checks that every hit lies on the surface of the first hit;
on a mismatch the matrix is cleared and returned empty (modelled as none),
otherwise the filled matrix is returned. -/
def sortHits (geo : Hit → HitGeom) (nX nY : Nat) (hits : List Hit) : Option HitMatrix :=
  if hits.all (fun h => (geo h).surface == (geo (hits.headD 0)).surface)
  then some ⟨nX, nY, fillMatrix geo hits⟩
  else none

/-- A cluster of at most two hits: the pair pushed into the output vector.
The source invariant that cluster.first is never null when pushed is
reflected by the first component being a plain Hit. -/
structure ClusterPair where
  first : Hit
  second : Option Hit
deriving DecidableEq

/-- Rolling state of the scan over the matrix: the pending cluster.first
pointer, and the clusters emitted so far. -/
structure ScanState where
  cur : Option Hit
  acc : List ClusterPair
deriving DecidableEq

/-- One inner-loop iteration of clusterSpacePoints over a cell.  isLast is
true exactly when the inner index is at its final value (iX == bins.size()-1
resp. iY == bins[0].size()-1), which triggers the immediate single-hit
emission in the source.  Otherwise an occupied cell with an empty buffer
becomes the pending first hit; with a nonempty buffer the cell (occupied or
not) is consumed as the secondary, the pair is emitted, and the buffer is
reset to the just-consumed secondary. -/
def stepCell (isLast : Bool) (st : ScanState) (cell : Option Hit) : ScanState :=
  match cell, st.cur with
  | some h, none =>
      if isLast then ⟨some h, st.acc ++ [⟨h, none⟩]⟩ else ⟨some h, st.acc⟩
  | _, some f => ⟨cell, st.acc ++ [⟨f, cell⟩]⟩
  | none, none => st

/-- Scan of one inner line of the matrix; only the final cell of the line
is processed with isLast = true. -/
def scanLine (st : ScanState) (line : List (Option Hit)) : ScanState :=
  match line with
  | [] => st
  | [c] => stepCell true st c
  | c :: c2 :: rest => scanLine (stepCell false st c) (c2 :: rest)

/-- The lines of the matrix in scan order.  When the matrix has more rows
than columns (bins.size() > bins[0].size()) the outer loop runs over iY and
the inner loop over iX, so the lines are the columns; otherwise the lines
are the rows. -/
def linesOf (g : HitMatrix) : List (List (Option Hit)) :=
  if g.nX > g.nY then
    (List.range g.nY).map (fun iY => (List.range g.nX).map (fun iX => g.cell iX iY))
  else
    (List.range g.nX).map (fun iX => (List.range g.nY).map (fun iY => g.cell iX iY))

/-- Full scan of the matrix: the rolling ScanState persists across line
boundaries, exactly as the cluster variable in the source lives outside the
two nested loops. -/
def clusterMatrix (lines : List (List (Option Hit))) : List ClusterPair :=
  (lines.foldl scanLine ⟨none, []⟩).acc

/-- clusterSpacePoints: the single-hit easy exit, then, if clustering is
requested, the matrix scan (an empty matrix gives no clusters); without
clustering every hit is its own cluster. -/
def clusterSpacePoints (geo : Hit → HitGeom) (nX nY : Nat) (hits : List Hit)
    (performClustering : Bool) : List ClusterPair :=
  if hits.length = 1 then [⟨hits.headD 0, none⟩]
  else if performClustering then
    match sortHits geo nX nY hits with
    | none => []
    | some g => if g.nX = 0 then [] else clusterMatrix (linesOf g)
  else hits.map (fun h => ⟨h, none⟩)

/-- Membership of a hit in a cluster pair. -/
def containsHit (cl : ClusterPair) (h : Hit) : Bool :=
  cl.first == h || cl.second == some h

/-- Number of hits held by a cluster pair. -/
def clusterHitCount (cl : ClusterPair) : Nat :=
  1 + (match cl.second with | some _ => 1 | none => 0)

/-- Two bin cells share an edge in bin-index space. -/
def binAdjacent (a b : HitGeom) : Bool :=
  (max a.binX b.binX - min a.binX b.binX) + (max a.binY b.binY - min a.binY b.binY) == 1

/- ===================== Geometry: vectors and configuration ============== -/

/-- A 3D world-coordinate vector (Acts::Vector3D); doubles are modelled as
exact reals. -/
@[ext]
structure V3 where
  x : ℝ
  y : ℝ
  z : ℝ

namespace V3

noncomputable def add (u v : V3) : V3 := ⟨u.x + v.x, u.y + v.y, u.z + v.z⟩

noncomputable def sub (u v : V3) : V3 := ⟨u.x - v.x, u.y - v.y, u.z - v.z⟩

noncomputable def smul (r : ℝ) (v : V3) : V3 := ⟨r * v.x, r * v.y, r * v.z⟩

noncomputable instance : Add V3 := ⟨add⟩

noncomputable instance : Sub V3 := ⟨sub⟩

noncomputable instance : SMul ℝ V3 := ⟨smul⟩

instance : Zero V3 := ⟨⟨0, 0, 0⟩⟩

/-- Scalar product of two vectors. -/
noncomputable def dot (u v : V3) : ℝ := u.x * v.x + u.y * v.y + u.z * v.z

/-- Cross product of two vectors. -/
noncomputable def cross (u v : V3) : V3 :=
  ⟨u.y * v.z - u.z * v.y, u.z * v.x - u.x * v.z, u.x * v.y - u.y * v.x⟩

/-- Euclidean magnitude (Eigen mag() / norm()). -/
noncomputable def mag (v : V3) : ℝ := Real.sqrt (dot v v)

end V3

/-- The DoubleHitSpacePointConfig parameter bundle (declared in the header;
the fields and their meaning are those read by the source file). -/
structure DoubleHitSpacePointConfig where
  diffDist : ℝ
  diffTheta2 : ℝ
  diffPhi2 : ℝ
  vertex : V3
  usePerpProj : Bool
  stripLengthTolerance : ℝ
  stripLengthGapTolerance : ℝ
  clusterFrontHits : Bool
  clusterBackHits : Bool

/-- Modelled from the spec: the SpacePointParameters working set declared in
the missing header.  Per the spec (section 3, SolverState) it holds the strip
axis vectors q and r, the vertex-relative sums s and t, the cross products
qs and rt, the solved parameters m and n, the effective limit, and, during
recovery, limitExtended and qmag; reset() returns every field to its
default, with limit defaulting to 1 and m, n to 0. -/
structure SpacePointParameters where
  q : V3
  r : V3
  s : V3
  t : V3
  qs : V3
  rt : V3
  m : ℝ
  n : ℝ
  limit : ℝ
  limitExtended : ℝ
  qmag : ℝ

/-- Modelled from the spec: the state of a freshly reset SpacePointParameters
(limit 1, every other field zero). -/
noncomputable def SpacePointParameters.reset : SpacePointParameters :=
  ⟨0, 0, 0, 0, 0, 0, 0, 0, 1, 0, 0⟩

/- ===================== Cluster matching (differenceOfHits, addHits) ===== -/

/-- differenceOfHits: the distance gate, then the squared theta and phi
gates, each failing with the sentinel -1; on success the squared angular
distance is returned.  The Eigen angular accessors phi() and theta() are
external and are passed in as abstract functions. -/
noncomputable def differenceOfHits (phi theta : V3 → ℝ) (pos1 pos2 : V3)
    (cfg : DoubleHitSpacePointConfig) : ℝ :=
  if V3.mag (pos1 - pos2) > cfg.diffDist then -1
  else
    if (theta (pos1 - cfg.vertex) - theta (pos2 - cfg.vertex))
        * (theta (pos1 - cfg.vertex) - theta (pos2 - cfg.vertex)) > cfg.diffTheta2 then -1
    else
      if (phi (pos1 - cfg.vertex) - phi (pos2 - cfg.vertex))
          * (phi (pos1 - cfg.vertex) - phi (pos2 - cfg.vertex)) > cfg.diffPhi2 then -1
      else
        (theta (pos1 - cfg.vertex) - theta (pos2 - cfg.vertex))
          * (theta (pos1 - cfg.vertex) - theta (pos2 - cfg.vertex))
        + (phi (pos1 - cfg.vertex) - phi (pos2 - cfg.vertex))
          * (phi (pos1 - cfg.vertex) - phi (pos2 - cfg.vertex))

/-- One iteration of the best-back-cluster scan in addHits.  The running
minimum diffMin, initialized to the largest double, is modelled as an
Option: none stands for the initial maximum, below which every finite score
lies, so a score is accepted against none exactly when it is nonnegative;
against a stored minimum the source condition
currentDiff < diffMin && currentDiff >= 0 is kept verbatim. -/
noncomputable def scanStep (best : Option (ℝ × Nat)) (idx : Nat) (score : ℝ) :
    Option (ℝ × Nat) :=
  match best with
  | none => if 0 ≤ score then some (score, idx) else none
  | some b => if score < b.1 ∧ 0 ≤ score then some (score, idx) else some b

/-- The inner loop of addHits over all back clusters, carrying the index. -/
noncomputable def scanFrom (best : Option (ℝ × Nat)) (idx : Nat) (scores : List ℝ) :
    Option (ℝ × Nat) :=
  match scores with
  | [] => best
  | sc :: rest => scanFrom (scanStep best idx sc) (idx + 1) rest

/-- Index of the back cluster selected by addHits for one front cluster,
given the scores of all back clusters; none when clusterMin stayed at
clustersBack.size() and no space point candidate is stored. -/
noncomputable def selectClosestBack (scores : List ℝ) : Option Nat :=
  (scanFrom none 0 scores).map (fun b => b.2)

/-- The selection addHits makes for a front cluster point among the back
cluster points. -/
noncomputable def selectBackFor (phi theta : V3 → ℝ) (cfg : DoubleHitSpacePointConfig)
    (front : V3) (backs : List V3) : Option Nat :=
  selectClosestBack (backs.map (fun b => differenceOfHits phi theta front b cfg))

/- ===================== Space-point solver ================================ -/

/-- calcPerpProj: closest-approach parameter lambda0 of the two strip lines
a + lambda0 q and c + lambda1 r; if the denominator is too small the
sentinel 1 (outside the expected interval [-1,0]) is returned. -/
noncomputable def calcPerpProj (a c q r : V3) : ℝ :=
  if |V3.dot q q - V3.dot q r * V3.dot q r| > 10e-7 then
    (V3.dot (c - a) r * V3.dot q r - V3.dot (c - a) q * V3.dot r r)
      / (V3.dot q q - V3.dot q r * V3.dot q r)
  else 1

/-- The strip endpoints of one candidate, as resolved by endsOfCluster:
a, b are the top and bottom end of the front strip (ends1), c, d of the
back strip (ends2). -/
structure CandidateEnds where
  a : V3
  b : V3
  c : V3
  d : V3

/-- The value the source leaves in resultPerpProj.  In the statement
resultPerpProj = calcPerpProj(...) <= 0. the comparison binds tighter than
the assignment, so resultPerpProj receives the double conversion of the
Boolean lambda <= 0, that is 1 when lambda <= 0 and 0 otherwise. -/
noncomputable def perpProjResult (e : CandidateEnds) : ℝ :=
  if calcPerpProj e.a e.c (e.a - e.b) (e.c - e.d) ≤ 0 then 1 else 0

/-- The vector s = ends1.first + ends1.second - 2 vertex. -/
noncomputable def sVec (cfg : DoubleHitSpacePointConfig) (e : CandidateEnds) : V3 :=
  e.a + e.b - (2 : ℝ) • cfg.vertex

/-- The vector t = ends2.first + ends2.second - 2 vertex. -/
noncomputable def tVec (cfg : DoubleHitSpacePointConfig) (e : CandidateEnds) : V3 :=
  e.c + e.d - (2 : ℝ) • cfg.vertex

/-- The cross product qs = q x s. -/
noncomputable def qsVec (cfg : DoubleHitSpacePointConfig) (e : CandidateEnds) : V3 :=
  V3.cross (e.a - e.b) (sVec cfg e)

/-- The cross product rt = r x t. -/
noncomputable def rtVec (cfg : DoubleHitSpacePointConfig) (e : CandidateEnds) : V3 :=
  V3.cross (e.c - e.d) (tVec cfg e)

/-- The solved parameter m = -(s . rt) / (q . rt) on the front strip. -/
noncomputable def vertexM (cfg : DoubleHitSpacePointConfig) (e : CandidateEnds) : ℝ :=
  -(V3.dot (sVec cfg e) (rtVec cfg e)) / V3.dot (e.a - e.b) (rtVec cfg e)

/-- The solved parameter n = -(t . qs) / (r . qs) on the back strip. -/
noncomputable def vertexN (cfg : DoubleHitSpacePointConfig) (e : CandidateEnds) : ℝ :=
  -(V3.dot (tVec cfg e) (qsVec cfg e)) / V3.dot (e.c - e.d) (qsVec cfg e)

/-- The effective limit: the reset value 1, replaced by
1 + stripLengthTolerance when the tolerance is nonzero. -/
noncomputable def effLimit (cfg : DoubleHitSpacePointConfig) : ℝ :=
  if cfg.stripLengthTolerance ≠ 0 then 1 + cfg.stripLengthTolerance else 1

/-- The SpacePointParameters of one candidate as calculateSpacePoints has
filled them when the acceptance test runs: n has been assigned only if the
short-circuit evaluation reached it, i.e. when the bound on m held;
otherwise it keeps its reset value 0. -/
noncomputable def solverParams (cfg : DoubleHitSpacePointConfig) (e : CandidateEnds) :
    SpacePointParameters :=
  ⟨e.a - e.b, e.c - e.d, sVec cfg e, tVec cfg e, qsVec cfg e, rtVec cfg e,
   vertexM cfg e,
   if |vertexM cfg e| ≤ effLimit cfg then vertexN cfg e else 0,
   effLimit cfg, 0, 0⟩

/- ===================== Recovery procedure ================================ -/

/-- The parameter n as recoverSpacePoint sees it: recomputed from t, qs and
r when it still has its reset value 0, kept otherwise. -/
noncomputable def recoverN (p : SpacePointParameters) : ℝ :=
  if p.n = 0 then -(V3.dot p.t p.qs) / V3.dot p.r p.qs else p.n

/-- The widened limit of recovery:
limitExtended = limit + stripLengthGapTolerance / qmag. -/
noncomputable def limitExtendedOf (p : SpacePointParameters)
    (cfg : DoubleHitSpacePointConfig) : ℝ :=
  p.limit + cfg.stripLengthGapTolerance / V3.mag p.q

/-- The scale projecting lengths on the second strip onto the first:
secOnFirstScale = q . r / (qmag * qmag). -/
noncomputable def secOnFirstScaleOf (p : SpacePointParameters) : ℝ :=
  V3.dot p.q p.r / (V3.mag p.q * V3.mag p.q)

/-- The larger of the two overshoots in the positive branch (m > 1, n > 1):
the overshoot of n is first projected onto the first strip. -/
noncomputable def biggerOvershootPos (p : SpacePointParameters) : ℝ :=
  if p.m - 1 > (recoverN p - 1) * secOnFirstScaleOf p then p.m - 1
  else (recoverN p - 1) * secOnFirstScaleOf p

/-- The corrected m of the positive branch. -/
noncomputable def recoveredMPos (p : SpacePointParameters) : ℝ :=
  p.m - biggerOvershootPos p

/-- The corrected n of the positive branch: the shift is scaled back onto
the second strip. -/
noncomputable def recoveredNPos (p : SpacePointParameters) : ℝ :=
  recoverN p - biggerOvershootPos p / secOnFirstScaleOf p

/-- The larger of the two overshoots in the negative branch (m < -1, n < -1). -/
noncomputable def biggerOvershootNeg (p : SpacePointParameters) : ℝ :=
  if -(p.m + 1) > -(recoverN p + 1) * secOnFirstScaleOf p then -(p.m + 1)
  else -(recoverN p + 1) * secOnFirstScaleOf p

/-- The corrected m of the negative branch. -/
noncomputable def recoveredMNeg (p : SpacePointParameters) : ℝ :=
  p.m + biggerOvershootNeg p

/-- The corrected n of the negative branch. -/
noncomputable def recoveredNNeg (p : SpacePointParameters) : ℝ :=
  recoverN p + biggerOvershootNeg p / secOnFirstScaleOf p

/-- Replace the parameters m and n after a correction; the remaining fields
are untouched (the caller only reads m after a successful recovery). -/
noncomputable def SpacePointParameters.updateMN (p : SpacePointParameters) (m n : ℝ) :
    SpacePointParameters :=
  ⟨p.q, p.r, p.s, p.t, p.qs, p.rt, m, n, p.limit, p.limitExtended, p.qmag⟩

/-- recoverSpacePoint: the easy failure exits (no gap tolerance, m or n
beyond the extended limit), then the two same-direction overshoot branches,
each returning whether the corrected parameters lie strictly inside the
limit; every other configuration of m and n fails. -/
noncomputable def recoverSpacePoint (p : SpacePointParameters)
    (cfg : DoubleHitSpacePointConfig) : Bool × SpacePointParameters :=
  if cfg.stripLengthGapTolerance ≤ 0 then (false, p)
  else if |p.m| > limitExtendedOf p cfg then (false, p)
  else if |recoverN p| > limitExtendedOf p cfg then (false, p)
  else if p.m > 1 ∧ recoverN p > 1 then
    (if |recoveredMPos p| < p.limit ∧ |recoveredNPos p| < p.limit then true else false,
     p.updateMN (recoveredMPos p) (recoveredNPos p))
  else if p.m < -1 ∧ recoverN p < -1 then
    (if |recoveredMNeg p| < p.limit ∧ |recoveredNNeg p| < p.limit then true else false,
     p.updateMN (recoveredMNeg p) (recoveredNNeg p))
  else (false, p)

/- ===================== calculateSpacePoints ============================== -/

/-- The accepted vertex-mode point 0.5 (a + b + m q). -/
noncomputable def vertexPoint (cfg : DoubleHitSpacePointConfig) (e : CandidateEnds) : V3 :=
  ((1 : ℝ) / 2) • (e.a + e.b + vertexM cfg e • (e.a - e.b))

/-- The point stored after a successful recovery, built from the corrected m. -/
noncomputable def recoveredPoint (cfg : DoubleHitSpacePointConfig) (e : CandidateEnds) : V3 :=
  ((1 : ℝ) / 2) •
    (e.a + e.b + (recoverSpacePoint (solverParams cfg e) cfg).2.m • (e.a - e.b))

/-- The vertex-based part of calculateSpacePoints for one candidate: accept
when both parameters pass the limit test, otherwise attempt recovery;
none means the position is left unset. -/
noncomputable def vertexSolve (cfg : DoubleHitSpacePointConfig) (e : CandidateEnds) :
    Option V3 :=
  if |vertexM cfg e| ≤ effLimit cfg ∧ |(solverParams cfg e).n| ≤ effLimit cfg then
    some (vertexPoint cfg e)
  else if (recoverSpacePoint (solverParams cfg e) cfg).1 = true then
    some (recoveredPoint cfg e)
  else none

/-- The whole per-candidate computation of calculateSpacePoints: the
perpendicular-projection branch fires when usePerpProj is set and
resultPerpProj is nonzero (the conversion of lambda <= 0), storing
ends1.first + resultPerpProj * q; every other candidate falls through to
the vertex-based computation. -/
noncomputable def solveCandidate (cfg : DoubleHitSpacePointConfig) (e : CandidateEnds) :
    Option V3 :=
  if cfg.usePerpProj = true ∧ perpProjResult e ≠ 0 then
    some (e.a + perpProjResult e • (e.a - e.b))
  else vertexSolve cfg e

/-- A DoubleHitSpacePoint candidate: the matched cluster pair is abstracted
by its resolved strip ends; spacePoint is the stored 3D position. -/
structure DoubleHitSpacePoint where
  ends : CandidateEnds
  spacePoint : V3

/-- The sentinel against which calculateSpacePoints tests whether a
candidate is already calculated: Acts::Vector3D::Zero(3). -/
def unsetPos : V3 := 0

noncomputable instance : DecidableEq V3 := fun _ _ => Classical.dec _

/-- Solving a candidate and storing the result in place; an unsolvable
candidate is returned unchanged (its position stays as it was). -/
noncomputable def applySolve (cfg : DoubleHitSpacePointConfig)
    (hits : DoubleHitSpacePoint) : DoubleHitSpacePoint :=
  match solveCandidate cfg hits.ends with
  | some p => ⟨hits.ends, p⟩
  | none => hits

/-- The loop body of calculateSpacePoints: a candidate whose spacePoint
differs from the zero sentinel is skipped, every other candidate is solved. -/
noncomputable def calcStep (cfg : DoubleHitSpacePointConfig)
    (hits : DoubleHitSpacePoint) : DoubleHitSpacePoint :=
  if hits.spacePoint ≠ unsetPos then hits else applySolve cfg hits

/-- calculateSpacePoints: the loop over the candidate storage. -/
noncomputable def calculateSpacePoints (spacePointStorage : List DoubleHitSpacePoint)
    (cfg : DoubleHitSpacePointConfig) : List DoubleHitSpacePoint :=
  spacePointStorage.map (calcStep cfg)

/- ===================== Concrete test inputs ============================= -/

/-- A configuration with the given vertex, projection flag and tolerances;
the matcher gates and clustering flags are irrelevant for the solver. -/
noncomputable def mkCfg (vertex : V3) (usePerpProj : Bool) (tol gapTol : ℝ) :
    DoubleHitSpacePointConfig :=
  ⟨0, 0, 0, vertex, usePerpProj, tol, gapTol, false, false⟩

/-- Perpendicular-projection configuration (no tolerances). -/
noncomputable def cfgPerp : DoubleHitSpacePointConfig := mkCfg (V3.mk 0 0 0) true 0 0

/-- Vertex-mode configuration with vertex at the origin and no tolerances. -/
noncomputable def cfgVert : DoubleHitSpacePointConfig := mkCfg (V3.mk 0 0 0) false 0 0

/-- Strips for the perpendicular-projection branch with lambda = -2/5:
front strip from (0,0,0) to (-1,0,0), back strip from (2/5,0,1) to
(2/5,-1,1). -/
noncomputable def eC1 : CandidateEnds := ⟨⟨0, 0, 0⟩, ⟨-1, 0, 0⟩, ⟨2/5, 0, 1⟩, ⟨2/5, -1, 1⟩⟩

/-- Crossing strips in the plane z = 1 whose closest-approach parameter is
lambda = 2 > 0 while the vertex-mode parameters are m = n = 0: front strip
from (1,0,1) to (-3/5,0,1), back strip from (1/5,1,1) to (1/5,-1,1). -/
noncomputable def eC2 : CandidateEnds := ⟨⟨1, 0, 1⟩, ⟨-3/5, 0, 1⟩, ⟨1/5, 1, 1⟩, ⟨1/5, -1, 1⟩⟩

/-- Vertex-mode configuration whose vertex sits below the origin. -/
noncomputable def cfgC3 : DoubleHitSpacePointConfig := mkCfg ⟨0, 0, -1⟩ false 0 0

/-- Two strips crossing exactly at the coordinate origin: the solved
position is (0,0,0). -/
noncomputable def eC3 : CandidateEnds :=
  ⟨⟨1/2, 0, 0⟩, ⟨-1/2, 0, 0⟩, ⟨0, 1/2, 0⟩, ⟨0, -1/2, 0⟩⟩

/-- Vertex-mode configuration with stripLengthTolerance 1/5 (so the limit
is 6/5) and stripLengthGapTolerance 2/5. -/
noncomputable def cfgTol : DoubleHitSpacePointConfig := mkCfg (V3.mk 0 0 0) false (1/5) (2/5)

/-- Strips whose vertex-mode parameters are m = 13/10 and n = 5/4, both
overshooting the limit 6/5 in the positive direction within the gap
tolerance: recovery corrects m to exactly 1. -/
noncomputable def eC6 : CandidateEnds :=
  ⟨⟨1, 0, 1⟩, ⟨-1, 0, 1⟩, ⟨47/40, -1/4, 1⟩, ⟨7/40, -9/4, 1⟩⟩

/-- Solver state with m = 11/10 inside the widened limit 6/5 and n = 13/10
outside it; the strip axes q = (2,0,0) and r = (1,2,0) give the projection
scale 1/2. -/
noncomputable def pC7 : SpacePointParameters :=
  ⟨⟨2, 0, 0⟩, ⟨1, 2, 0⟩, V3.mk 0 0 0, V3.mk 0 0 0, V3.mk 0 0 0, V3.mk 0 0 0,
   11/10, 13/10, 6/5, 0, 0⟩

/-- Matcher configuration with diffDist = 1 and vertex at the origin. -/
noncomputable def cfgC9 : DoubleHitSpacePointConfig := ⟨1, 0, 0, V3.mk 0 0 0, false, 0, 0, false, false⟩

/-- A trivial angular accessor, standing in for any phi or theta. -/
noncomputable def angZero : V3 → ℝ := fun _ => 0

/-- Hits 0 and 1 on the same surface at bin cells (2,0) and (0,1) of a
3 x 2 occupancy matrix: consecutive in scan order but not bin-adjacent. -/
def geoC4 : Hit → HitGeom := fun h => if h = 0 then ⟨0, 2, 0⟩ else ⟨0, 0, 1⟩

/-- Hits 0 and 1 on two different surfaces. -/
def geoC8 : Hit → HitGeom := fun h => if h = 0 then ⟨0, 0, 0⟩ else ⟨1, 0, 0⟩

/-- A candidate whose position was already set to a nonzero point. -/
noncomputable def candSet : DoubleHitSpacePoint := ⟨eC3, ⟨1, 2, 3⟩⟩

/-- A candidate whose position still holds the zero sentinel. -/
noncomputable def candUnset : DoubleHitSpacePoint := ⟨eC3, unsetPos⟩

/-- Solver state with m = 21/20 and n = -21/20: overshoots in opposite
directions. -/
noncomputable def pOpp : SpacePointParameters :=
  ⟨⟨2, 0, 0⟩, ⟨1, 2, 0⟩, V3.mk 0 0 0, V3.mk 0 0 0, V3.mk 0 0 0, V3.mk 0 0 0,
   21/20, -(21/20), 6/5, 0, 0⟩

/-- Strips whose vertex-mode parameters are m = 3/2 and n = -3/2 (opposite
overshoot): the candidate must stay unset. -/
noncomputable def eOpp : CandidateEnds :=
  ⟨⟨1, 0, 1⟩, ⟨-1, 0, 1⟩, ⟨11/4, 5/2, 1⟩, ⟨7/4, 1/2, 1⟩⟩

/-- A front cluster point at the origin. -/
noncomputable def frontW : V3 := ⟨0, 0, 0⟩

/-- A single back cluster point at distance 3 from the front point. -/
noncomputable def backsW : List V3 := [⟨3, 0, 0⟩]

/- ===================== Helper lemmas ==================================== -/

@[simp]
theorem V3.add_mk (a b c d e f : ℝ) :
    V3.mk a b c + V3.mk d e f = V3.mk (a + d) (b + e) (c + f) := rfl

@[simp]
theorem V3.sub_mk (a b c d e f : ℝ) :
    V3.mk a b c - V3.mk d e f = V3.mk (a - d) (b - e) (c - f) := rfl

@[simp]
theorem V3.smul_mk (r a b c : ℝ) :
    r • V3.mk a b c = V3.mk (r * a) (r * b) (r * c) := rfl

@[simp]
theorem V3.dot_mk (a b c d e f : ℝ) :
    V3.dot (V3.mk a b c) (V3.mk d e f) = a * d + b * e + c * f := rfl

@[simp]
theorem V3.cross_mk (a b c d e f : ℝ) :
    V3.cross (V3.mk a b c) (V3.mk d e f)
      = V3.mk (b * f - c * e) (c * d - a * f) (a * e - b * d) := rfl

@[simp]
theorem V3.zero_def : (0 : V3) = V3.mk 0 0 0 := rfl

theorem V3.mag_mk (a b c : ℝ) :
    V3.mag (V3.mk a b c) = Real.sqrt (a * a + b * b + c * c) := rfl

theorem sqrt_four : Real.sqrt 4 = 2 := by
  rw [show (4 : ℝ) = 2 ^ 2 by norm_num, Real.sqrt_sq (by norm_num : (0 : ℝ) ≤ 2)]

theorem sqrt_nine : Real.sqrt 9 = 3 := by
  rw [show (9 : ℝ) = 3 ^ 2 by norm_num, Real.sqrt_sq (by norm_num : (0 : ℝ) ≤ 3)]

theorem mag_two_zero_zero : V3.mag (V3.mk 2 0 0) = 2 := by
  rw [V3.mag_mk, show (2 * 2 + 0 * 0 + 0 * 0 : ℝ) = 4 by norm_num, sqrt_four]

theorem unsetPos_def : unsetPos = V3.mk 0 0 0 := rfl

/- ===================== Claim C1 ========================================= -/

/-- C1 (code bug witness): at strips whose closest-approach parameter is
lambda = -2/5 <= 0, the perpendicular-projection branch of
calculateSpacePoints stores ends1.first + 1 * q — the conversion of the
Boolean lambda <= 0 assigned to resultPerpProj by the operator-precedence
slip — and not the claimed point a + lambda q. -/
theorem C1_perp_branch_stores_converted_bool :
    calcPerpProj eC1.a eC1.c (eC1.a - eC1.b) (eC1.c - eC1.d) = -(2/5)
    ∧ calcStep cfgPerp ⟨eC1, unsetPos⟩ = ⟨eC1, ⟨1, 0, 0⟩⟩
    ∧ V3.mk 1 0 0 ≠ eC1.a + (-(2/5) : ℝ) • (eC1.a - eC1.b) := by
  have hlam : calcPerpProj eC1.a eC1.c (eC1.a - eC1.b) (eC1.c - eC1.d) = -(2/5) := by
    norm_num [calcPerpProj, eC1]
  have hres : perpProjResult eC1 = 1 := by
    rw [perpProjResult, if_pos (by rw [hlam]; norm_num)]
  have hflag : cfgPerp.usePerpProj = true := rfl
  have hsolve : solveCandidate cfgPerp eC1 = some (V3.mk 1 0 0) := by
    rw [solveCandidate, if_pos ⟨hflag, by rw [hres]; norm_num⟩, hres]
    norm_num [eC1]
  refine ⟨hlam, ?_, ?_⟩
  · have hskip : calcStep cfgPerp ⟨eC1, unsetPos⟩ = applySolve cfgPerp ⟨eC1, unsetPos⟩ := by
      simp [calcStep]
    rw [hskip, applySolve]
    simp [hsolve]
  · norm_num [eC1]

/- ===================== Claim C2 ========================================= -/

/-- C2 (counterexample): strips with closest-approach parameter
lambda = 2 > 0 under usePerpProj are not left unset: the candidate falls
through to the vertex-based computation, which stores (1/5, 0, 1). -/
theorem C2_positive_lambda_position_set_counterexample :
    0 < calcPerpProj eC2.a eC2.c (eC2.a - eC2.b) (eC2.c - eC2.d)
    ∧ calcStep cfgPerp ⟨eC2, unsetPos⟩ = ⟨eC2, ⟨1/5, 0, 1⟩⟩
    ∧ V3.mk (1/5) 0 1 ≠ unsetPos := by
  have hlam : calcPerpProj eC2.a eC2.c (eC2.a - eC2.b) (eC2.c - eC2.d) = 2 := by
    norm_num [calcPerpProj, eC2, abs_of_pos]
  have hm : vertexM cfgPerp eC2 = 0 := by
    norm_num [vertexM, sVec, tVec, rtVec, cfgPerp, mkCfg, eC2]
  have hn : vertexN cfgPerp eC2 = 0 := by
    norm_num [vertexN, sVec, tVec, qsVec, cfgPerp, mkCfg, eC2]
  have hlimit : effLimit cfgPerp = 1 := by norm_num [effLimit, cfgPerp, mkCfg]
  have hpn : (solverParams cfgPerp eC2).n = 0 := by
    simp only [solverParams]
    rw [hm, hn, hlimit]
    norm_num
  have hacc : vertexSolve cfgPerp eC2 = some (vertexPoint cfgPerp eC2) := by
    rw [vertexSolve, if_pos]
    constructor
    · rw [hm, hlimit]; norm_num
    · rw [hpn, hlimit]; norm_num
  have hvp : vertexPoint cfgPerp eC2 = V3.mk (1/5) 0 1 := by
    rw [vertexPoint, hm]
    norm_num [eC2]
  have hsolve : solveCandidate cfgPerp eC2 = some (V3.mk (1/5) 0 1) := by
    rw [solveCandidate, if_neg, hacc, hvp]
    rintro ⟨-, hne⟩
    exact hne (by rw [perpProjResult, if_neg (by rw [hlam]; norm_num)])
  refine ⟨by rw [hlam]; norm_num, ?_, by norm_num [unsetPos_def]⟩
  have hskip : calcStep cfgPerp ⟨eC2, unsetPos⟩ = applySolve cfgPerp ⟨eC2, unsetPos⟩ := by
    simp [calcStep]
  rw [hskip, applySolve]
  simp [hsolve]

/-- C2 amended: under usePerpProj, a candidate whose closest-approach
parameter is strictly positive (the degenerate-denominator sentinel 1
included) is not handled by the perpendicular-projection branch; it falls
through to the vertex-based computation, whose outcome decides whether a
position is stored. -/
theorem C2_positive_lambda_falls_through (cfg : DoubleHitSpacePointConfig)
    (e : CandidateEnds)
    (hpos : 0 < calcPerpProj e.a e.c (e.a - e.b) (e.c - e.d)) :
    solveCandidate cfg e = vertexSolve cfg e := by
  rw [solveCandidate, if_neg]
  rintro ⟨-, hne⟩
  exact hne (by rw [perpProjResult, if_neg (not_le.mpr hpos)])

/-- C2 witness: the fall-through theorem applied at the concrete strips
with lambda = 2. -/
theorem C2_positive_lambda_falls_through_witness :
    0 < calcPerpProj eC2.a eC2.c (eC2.a - eC2.b) (eC2.c - eC2.d)
    ∧ solveCandidate cfgPerp eC2 = vertexSolve cfgPerp eC2 :=
  ⟨by norm_num [calcPerpProj, eC2, abs_of_pos],
   C2_positive_lambda_falls_through cfgPerp eC2 (by norm_num [calcPerpProj, eC2, abs_of_pos])⟩

/- ===================== Claim C3 ========================================= -/

/-- C3 (counterexample): the unset sentinel is Vector3D::Zero, i.e. exactly
the coordinate origin, and a candidate can legitimately solve to the
origin: the sentinel is not distinct from every valid coordinate. -/
theorem C3_sentinel_is_origin_counterexample :
    vertexSolve cfgC3 eC3 = some unsetPos ∧ unsetPos = V3.mk 0 0 0 := by
  have hm : vertexM cfgC3 eC3 = 0 := by
    norm_num [vertexM, sVec, tVec, rtVec, cfgC3, mkCfg, eC3]
  have hn : vertexN cfgC3 eC3 = 0 := by
    norm_num [vertexN, sVec, tVec, qsVec, cfgC3, mkCfg, eC3]
  have hlimit : effLimit cfgC3 = 1 := by norm_num [effLimit, cfgC3, mkCfg]
  have hpn : (solverParams cfgC3 eC3).n = 0 := by
    simp only [solverParams]
    rw [hm, hn, hlimit]
    norm_num
  have hacc : vertexSolve cfgC3 eC3 = some (vertexPoint cfgC3 eC3) := by
    rw [vertexSolve, if_pos]
    constructor
    · rw [hm, hlimit]; norm_num
    · rw [hpn, hlimit]; norm_num
  have hvp : vertexPoint cfgC3 eC3 = V3.mk 0 0 0 := by
    rw [vertexPoint, hm]
    norm_num [eC3]
  exact ⟨by rw [hacc, hvp]; rfl, rfl⟩

/-- C3 amended: the sentinel is the zero vector; calculateSpacePoints skips
exactly the candidates whose stored position differs from zero and solves
exactly those whose position equals zero, so a candidate legitimately
solved to the origin is indistinguishable from an unsolved one. -/
theorem C3_zero_sentinel_guard (cfg : DoubleHitSpacePointConfig)
    (cand : DoubleHitSpacePoint) :
    (cand.spacePoint ≠ unsetPos → calcStep cfg cand = cand)
    ∧ (cand.spacePoint = unsetPos → calcStep cfg cand = applySolve cfg cand)
    ∧ unsetPos = V3.mk 0 0 0 := by
  refine ⟨fun h => by rw [calcStep, if_pos h], fun h => ?_, rfl⟩
  rw [calcStep, if_neg]
  simp [h]

/-- C3 witness: the guard theorem applied to one already-set candidate and
one zero candidate. -/
theorem C3_zero_sentinel_guard_witness :
    calcStep cfgC3 candSet = candSet
    ∧ calcStep cfgC3 candUnset = applySolve cfgC3 candUnset :=
  ⟨(C3_zero_sentinel_guard cfgC3 candSet).1
     (by norm_num [candSet, unsetPos_def]),
   (C3_zero_sentinel_guard cfgC3 candUnset).2.1 rfl⟩

/- ===================== Claim C5 ========================================= -/

/-- C5: in vertex-based mode, with the formula denominators nonzero (where
the real model and double arithmetic agree), a candidate whose parameters
m = -(s.rt)/(q.rt) and n = -(t.qs)/(r.qs) both lie within the effective
limit (1, or 1 + stripLengthTolerance when the tolerance is nonzero) is
stored as the point (a + b + m q) / 2. -/
theorem C5_vertex_mode_accepts_within_limit (cfg : DoubleHitSpacePointConfig)
    (e : CandidateEnds)
    (hmode : cfg.usePerpProj = false)
    (_hqrt : V3.dot (e.a - e.b) (rtVec cfg e) ≠ 0)
    (_hrqs : V3.dot (e.c - e.d) (qsVec cfg e) ≠ 0)
    (hm : |vertexM cfg e| ≤ effLimit cfg)
    (hn : |vertexN cfg e| ≤ effLimit cfg) :
    solveCandidate cfg e = some (vertexPoint cfg e) := by
  rw [solveCandidate, if_neg, vertexSolve, if_pos]
  · refine ⟨hm, ?_⟩
    simp only [solverParams]
    rw [if_pos hm]
    exact hn
  · rintro ⟨hflag, -⟩
    rw [hmode] at hflag
    exact Bool.false_ne_true hflag

/-- C5 witness: strips with m = 0 and n = 0 under the origin vertex are
stored at the crossing point (1/5, 0, 1). -/
theorem C5_vertex_mode_accepts_within_limit_witness :
    solveCandidate cfgVert eC2 = some (V3.mk (1/5) 0 1) := by
  have hm : vertexM cfgVert eC2 = 0 := by
    norm_num [vertexM, sVec, tVec, rtVec, cfgVert, mkCfg, eC2]
  have hn : vertexN cfgVert eC2 = 0 := by
    norm_num [vertexN, sVec, tVec, qsVec, cfgVert, mkCfg, eC2]
  have hlimit : effLimit cfgVert = 1 := by norm_num [effLimit, cfgVert, mkCfg]
  have happ := C5_vertex_mode_accepts_within_limit cfgVert eC2 rfl
    (by norm_num [rtVec, tVec, cfgVert, mkCfg, eC2])
    (by norm_num [qsVec, sVec, cfgVert, mkCfg, eC2])
    (by rw [hm, hlimit]; norm_num)
    (by rw [hn, hlimit]; norm_num)
  rw [happ, vertexPoint, hm]
  norm_num [eC2]

/- ===================== Claim C10 ======================================== -/

/-- C10: in the correction branches every division is well-defined as soon
as the strip axes are non-perpendicular: with |q| nonzero the denominators
qmag * qmag and secOnFirstScale are nonzero exactly when q.r is nonzero,
so q.r different from 0 is an unstated precondition of the recovery
correction. -/
theorem C10_correction_divisions_welldefined (p : SpacePointParameters)
    (hq : V3.mag p.q ≠ 0) :
    V3.mag p.q * V3.mag p.q ≠ 0
    ∧ (V3.dot p.q p.r ≠ 0 → secOnFirstScaleOf p ≠ 0)
    ∧ (V3.dot p.q p.r = 0 → secOnFirstScaleOf p = 0) := by
  refine ⟨mul_ne_zero hq hq, fun hqr => ?_, fun hqr => ?_⟩
  · exact div_ne_zero hqr (mul_ne_zero hq hq)
  · rw [secOnFirstScaleOf, hqr, zero_div]

/-- C10 witness: the division guard theorem applied at the concrete state
with q = (2,0,0), r = (1,2,0). -/
theorem C10_correction_divisions_welldefined_witness :
    V3.mag pC7.q * V3.mag pC7.q ≠ 0 ∧ secOnFirstScaleOf pC7 ≠ 0 := by
  have hq : V3.mag pC7.q ≠ 0 := by
    rw [show pC7.q = V3.mk 2 0 0 from rfl, mag_two_zero_zero]
    norm_num
  have h := C10_correction_divisions_welldefined pC7 hq
  exact ⟨h.1, h.2.1 (by norm_num [pC7])⟩

/- ===================== Claim C6 ========================================= -/

/-- C6: recoverSpacePoint fails whenever the gap tolerance is nonpositive
or m or n (recomputed when still 0) exceeds
limitExtended = limit + stripLengthGapTolerance / |q|; in a same-direction
overshoot it succeeds exactly when the parameters corrected by the larger
overshoot (the n overshoot projected through secOnFirstScale, the shift
scaled back onto n) lie strictly inside the limit, the corrected m and n
being stored in the state; and calculateSpacePoints stores the point
(a + b + corrected m * q) / 2 after a successful recovery. -/
theorem C6_recovery_contract (cfg : DoubleHitSpacePointConfig)
    (p : SpacePointParameters) (e : CandidateEnds) :
    (cfg.stripLengthGapTolerance ≤ 0 → (recoverSpacePoint p cfg).1 = false)
    ∧ (|p.m| > limitExtendedOf p cfg → (recoverSpacePoint p cfg).1 = false)
    ∧ (|recoverN p| > limitExtendedOf p cfg → (recoverSpacePoint p cfg).1 = false)
    ∧ (p.m > 1 → recoverN p > 1 →
        (((recoverSpacePoint p cfg).1 = true) ↔
          (0 < cfg.stripLengthGapTolerance ∧ |p.m| ≤ limitExtendedOf p cfg
            ∧ |recoverN p| ≤ limitExtendedOf p cfg
            ∧ |recoveredMPos p| < p.limit ∧ |recoveredNPos p| < p.limit)))
    ∧ (p.m > 1 → recoverN p > 1 → 0 < cfg.stripLengthGapTolerance →
        |p.m| ≤ limitExtendedOf p cfg → |recoverN p| ≤ limitExtendedOf p cfg →
        (recoverSpacePoint p cfg).2.m = recoveredMPos p
        ∧ (recoverSpacePoint p cfg).2.n = recoveredNPos p)
    ∧ (p.m < -1 → recoverN p < -1 →
        (((recoverSpacePoint p cfg).1 = true) ↔
          (0 < cfg.stripLengthGapTolerance ∧ |p.m| ≤ limitExtendedOf p cfg
            ∧ |recoverN p| ≤ limitExtendedOf p cfg
            ∧ |recoveredMNeg p| < p.limit ∧ |recoveredNNeg p| < p.limit)))
    ∧ (p.m < -1 → recoverN p < -1 → 0 < cfg.stripLengthGapTolerance →
        |p.m| ≤ limitExtendedOf p cfg → |recoverN p| ≤ limitExtendedOf p cfg →
        (recoverSpacePoint p cfg).2.m = recoveredMNeg p
        ∧ (recoverSpacePoint p cfg).2.n = recoveredNNeg p)
    ∧ (¬(|vertexM cfg e| ≤ effLimit cfg ∧ |(solverParams cfg e).n| ≤ effLimit cfg) →
        (recoverSpacePoint (solverParams cfg e) cfg).1 = true →
        vertexSolve cfg e = some (recoveredPoint cfg e)) := by
  refine ⟨?_, ?_, ?_, ?_, ?_, ?_, ?_, ?_⟩
  · intro h
    rw [recoverSpacePoint, if_pos h]
  · intro h
    by_cases hg : cfg.stripLengthGapTolerance ≤ 0
    · rw [recoverSpacePoint, if_pos hg]
    · rw [recoverSpacePoint, if_neg hg, if_pos h]
  · intro h
    by_cases hg : cfg.stripLengthGapTolerance ≤ 0
    · rw [recoverSpacePoint, if_pos hg]
    · by_cases hm : |p.m| > limitExtendedOf p cfg
      · rw [recoverSpacePoint, if_neg hg, if_pos hm]
      · rw [recoverSpacePoint, if_neg hg, if_neg hm, if_pos h]
  · intro hm1 hn1
    constructor
    · intro htrue
      by_cases hg : cfg.stripLengthGapTolerance ≤ 0
      · rw [recoverSpacePoint, if_pos hg] at htrue; cases htrue
      by_cases hm : |p.m| > limitExtendedOf p cfg
      · rw [recoverSpacePoint, if_neg hg, if_pos hm] at htrue; cases htrue
      by_cases hn : |recoverN p| > limitExtendedOf p cfg
      · rw [recoverSpacePoint, if_neg hg, if_neg hm, if_pos hn] at htrue; cases htrue
      rw [recoverSpacePoint, if_neg hg, if_neg hm, if_neg hn, if_pos ⟨hm1, hn1⟩] at htrue
      by_cases hc : |recoveredMPos p| < p.limit ∧ |recoveredNPos p| < p.limit
      · exact ⟨lt_of_not_le hg, not_lt.mp hm, not_lt.mp hn, hc.1, hc.2⟩
      · rw [if_neg hc] at htrue; cases htrue
    · rintro ⟨hg, hm, hn, hrm, hrn⟩
      rw [recoverSpacePoint, if_neg (not_le.mpr hg), if_neg (not_lt.mpr hm),
        if_neg (not_lt.mpr hn), if_pos ⟨hm1, hn1⟩, if_pos ⟨hrm, hrn⟩]
  · intro hm1 hn1 hg hm hn
    rw [recoverSpacePoint, if_neg (not_le.mpr hg), if_neg (not_lt.mpr hm),
      if_neg (not_lt.mpr hn), if_pos ⟨hm1, hn1⟩]
    exact ⟨rfl, rfl⟩
  · intro hm1 hn1
    have hguard : ¬(p.m > 1 ∧ recoverN p > 1) := by
      rintro ⟨h, -⟩; linarith
    constructor
    · intro htrue
      by_cases hg : cfg.stripLengthGapTolerance ≤ 0
      · rw [recoverSpacePoint, if_pos hg] at htrue; cases htrue
      by_cases hm : |p.m| > limitExtendedOf p cfg
      · rw [recoverSpacePoint, if_neg hg, if_pos hm] at htrue; cases htrue
      by_cases hn : |recoverN p| > limitExtendedOf p cfg
      · rw [recoverSpacePoint, if_neg hg, if_neg hm, if_pos hn] at htrue; cases htrue
      rw [recoverSpacePoint, if_neg hg, if_neg hm, if_neg hn, if_neg hguard,
        if_pos ⟨hm1, hn1⟩] at htrue
      by_cases hc : |recoveredMNeg p| < p.limit ∧ |recoveredNNeg p| < p.limit
      · exact ⟨lt_of_not_le hg, not_lt.mp hm, not_lt.mp hn, hc.1, hc.2⟩
      · rw [if_neg hc] at htrue; cases htrue
    · rintro ⟨hg, hm, hn, hrm, hrn⟩
      rw [recoverSpacePoint, if_neg (not_le.mpr hg), if_neg (not_lt.mpr hm),
        if_neg (not_lt.mpr hn), if_neg hguard, if_pos ⟨hm1, hn1⟩, if_pos ⟨hrm, hrn⟩]
  · intro hm1 hn1 hg hm hn
    have hguard : ¬(p.m > 1 ∧ recoverN p > 1) := by
      rintro ⟨h, -⟩; linarith
    rw [recoverSpacePoint, if_neg (not_le.mpr hg), if_neg (not_lt.mpr hm),
      if_neg (not_lt.mpr hn), if_neg hguard, if_pos ⟨hm1, hn1⟩]
    exact ⟨rfl, rfl⟩
  · intro hrej hsucc
    rw [vertexSolve, if_neg hrej, if_pos hsucc]

/-- C6 witness: the contract applied at a configuration without gap
tolerance (recovery unavailable) and at strips with m = 13/10, n = 5/4
under limit 6/5 and gap tolerance 2/5, where recovery succeeds, corrects m
to 1 and stores the endpoint (1, 0, 1). -/
theorem C6_recovery_contract_witness :
    (recoverSpacePoint SpacePointParameters.reset cfgVert).1 = false
    ∧ (recoverSpacePoint (solverParams cfgTol eC6) cfgTol).1 = true
    ∧ (recoverSpacePoint (solverParams cfgTol eC6) cfgTol).2.m = 1
    ∧ vertexSolve cfgTol eC6 = some (V3.mk 1 0 1) := by
  have hnogap := (C6_recovery_contract cfgVert SpacePointParameters.reset eC6).1
    (by norm_num [cfgVert, mkCfg])
  have hm : vertexM cfgTol eC6 = 13/10 := by
    norm_num [vertexM, sVec, tVec, rtVec, cfgTol, mkCfg, eC6]
  have hlimit : effLimit cfgTol = 6/5 := by norm_num [effLimit, cfgTol, mkCfg]
  have hpm : (solverParams cfgTol eC6).m = 13/10 := by
    simp only [solverParams]; exact hm
  have hplim : (solverParams cfgTol eC6).limit = 6/5 := by
    simp only [solverParams]; exact hlimit
  have hpn : (solverParams cfgTol eC6).n = 0 := by
    simp only [solverParams]
    rw [if_neg]
    rw [hm, hlimit]
    norm_num [abs_of_nonneg]
  have hq : (solverParams cfgTol eC6).q = V3.mk 2 0 0 := by
    simp only [solverParams]
    norm_num [eC6]
  have hmag : V3.mag (solverParams cfgTol eC6).q = 2 := by
    rw [hq, mag_two_zero_zero]
  have hlimEx : limitExtendedOf (solverParams cfgTol eC6) cfgTol = 7/5 := by
    rw [limitExtendedOf, hmag, hplim]
    norm_num [cfgTol, mkCfg]
  have hrn : recoverN (solverParams cfgTol eC6) = 5/4 := by
    rw [recoverN, if_pos hpn]
    simp only [solverParams]
    norm_num [tVec, qsVec, sVec, cfgTol, mkCfg, eC6]
  have hscale : secOnFirstScaleOf (solverParams cfgTol eC6) = 1/2 := by
    rw [secOnFirstScaleOf, hmag]
    simp only [solverParams]
    norm_num [eC6]
  have hbig : biggerOvershootPos (solverParams cfgTol eC6) = 3/10 := by
    rw [biggerOvershootPos, hrn, hscale, hpm]
    norm_num
  have hrm : recoveredMPos (solverParams cfgTol eC6) = 1 := by
    rw [recoveredMPos, hpm, hbig]
    norm_num
  have hrnn : recoveredNPos (solverParams cfgTol eC6) = 13/20 := by
    rw [recoveredNPos, hrn, hbig, hscale]
    norm_num
  have hgap : (0:ℝ) < cfgTol.stripLengthGapTolerance := by
    norm_num [cfgTol, mkCfg]
  have hsucc : (recoverSpacePoint (solverParams cfgTol eC6) cfgTol).1 = true :=
    ((C6_recovery_contract cfgTol (solverParams cfgTol eC6) eC6).2.2.2.1
      (by rw [hpm]; norm_num) (by rw [hrn]; norm_num)).mpr
      ⟨hgap, by rw [hpm, hlimEx]; norm_num [abs_of_nonneg], by rw [hrn, hlimEx]; norm_num [abs_of_nonneg],
       by rw [hrm, hplim]; norm_num [abs_of_nonneg], by rw [hrnn, hplim]; norm_num [abs_of_nonneg]⟩
  have hfields := (C6_recovery_contract cfgTol (solverParams cfgTol eC6) eC6).2.2.2.2.1
    (by rw [hpm]; norm_num) (by rw [hrn]; norm_num) hgap
    (by rw [hpm, hlimEx]; norm_num [abs_of_nonneg]) (by rw [hrn, hlimEx]; norm_num [abs_of_nonneg])
  have hrej : ¬(|vertexM cfgTol eC6| ≤ effLimit cfgTol
      ∧ |(solverParams cfgTol eC6).n| ≤ effLimit cfgTol) := by
    rintro ⟨habs, -⟩
    rw [hm, hlimit] at habs
    have : |(13:ℝ)/10| = 13/10 := by norm_num
    rw [this] at habs
    linarith
  have hstore := (C6_recovery_contract cfgTol (solverParams cfgTol eC6) eC6).2.2.2.2.2.2.2
    hrej hsucc
  have hpoint : recoveredPoint cfgTol eC6 = V3.mk 1 0 1 := by
    rw [recoveredPoint, hfields.1, hrm]
    norm_num [eC6]
  exact ⟨hnogap, hsucc, by rw [hfields.1, hrm], by rw [hstore, hpoint]⟩

/- ===================== Claim C7 ========================================= -/

/-- Recovery fails whenever the two parameters do not overshoot past the
fixed bounds -1 and 1 in the same direction: the two correction branches
test m and n against 1 and -1, not against the widened limit. -/
theorem recover_fails_without_same_direction_overshoot
    (cfg : DoubleHitSpacePointConfig) (p : SpacePointParameters)
    (h : |p.m| ≤ 1 ∨ |recoverN p| ≤ 1
      ∨ (p.m > 1 ∧ recoverN p < -1) ∨ (p.m < -1 ∧ recoverN p > 1)) :
    (recoverSpacePoint p cfg).1 = false := by
  by_cases hg : cfg.stripLengthGapTolerance ≤ 0
  · rw [recoverSpacePoint, if_pos hg]
  by_cases hm : |p.m| > limitExtendedOf p cfg
  · rw [recoverSpacePoint, if_neg hg, if_pos hm]
  by_cases hn : |recoverN p| > limitExtendedOf p cfg
  · rw [recoverSpacePoint, if_neg hg, if_neg hm, if_pos hn]
  have g1 : ¬(p.m > 1 ∧ recoverN p > 1) := by
    rcases h with h | h | ⟨h1, h2⟩ | ⟨h1, h2⟩
    · rintro ⟨hm1, -⟩
      have := le_abs_self p.m
      linarith
    · rintro ⟨-, hn1⟩
      have := le_abs_self (recoverN p)
      linarith
    · rintro ⟨-, hn1⟩
      linarith
    · rintro ⟨hm1, -⟩
      linarith
  have g2 : ¬(p.m < -1 ∧ recoverN p < -1) := by
    rcases h with h | h | ⟨h1, h2⟩ | ⟨h1, h2⟩
    · rintro ⟨hm1, -⟩
      have := neg_abs_le p.m
      linarith
    · rintro ⟨-, hn1⟩
      have := neg_abs_le (recoverN p)
      linarith
    · rintro ⟨hm1, -⟩
      linarith
    · rintro ⟨-, hn1⟩
      linarith
  rw [recoverSpacePoint, if_neg hg, if_neg hm, if_neg hn, if_neg g1, if_neg g2]

/-- C7 (counterexample): a solver state with m = 11/10 inside the valid
interval (limit 6/5, from stripLengthTolerance 1/5) and n = 13/10 outside
it is recovered successfully, because the correction branches compare
against the fixed 1 instead of the widened limit. -/
theorem C7_in_bounds_m_recovered_counterexample :
    |pC7.m| ≤ pC7.limit ∧ pC7.limit < |recoverN pC7|
    ∧ (recoverSpacePoint pC7 cfgTol).1 = true := by
  have hrn : recoverN pC7 = 13/10 := by
    rw [recoverN, if_neg (by norm_num [pC7])]
    norm_num [pC7]
  have hmag : V3.mag pC7.q = 2 := by
    rw [show pC7.q = V3.mk 2 0 0 from rfl, mag_two_zero_zero]
  have hlimEx : limitExtendedOf pC7 cfgTol = 7/5 := by
    rw [limitExtendedOf, hmag]
    norm_num [pC7, cfgTol, mkCfg]
  have hscale : secOnFirstScaleOf pC7 = 1/2 := by
    rw [secOnFirstScaleOf, hmag]
    norm_num [pC7]
  have hbig : biggerOvershootPos pC7 = 3/20 := by
    rw [biggerOvershootPos, hrn, hscale]
    norm_num [pC7]
  have hrm : recoveredMPos pC7 = 19/20 := by
    rw [recoveredMPos, hbig]
    norm_num [pC7]
  have hrnn : recoveredNPos pC7 = 1 := by
    rw [recoveredNPos, hrn, hbig, hscale]
    norm_num
  refine ⟨by norm_num [pC7, abs_of_nonneg], by rw [hrn]; norm_num [pC7, abs_of_nonneg], ?_⟩
  rw [recoverSpacePoint,
    if_neg (by norm_num [cfgTol, mkCfg]),
    if_neg (by rw [hlimEx]; norm_num [pC7, abs_of_nonneg]),
    if_neg (by rw [hrn, hlimEx]; norm_num [abs_of_nonneg]),
    if_pos (by rw [hrn]; norm_num [pC7]),
    if_pos (by rw [hrm, hrnn]; norm_num [pC7, abs_of_nonneg])]

/-- C7 amended: recovery never succeeds when m and n overshoot the fixed
interval [-1, 1] in opposite directions, or when one of them lies inside
[-1, 1] (the branch guards compare against 1, not the widened limit); a
candidate entering recovery in such a state keeps its position unset. -/
theorem C7_opposite_or_in_bounds_fails (cfg : DoubleHitSpacePointConfig)
    (p : SpacePointParameters) (e : CandidateEnds) :
    ((|p.m| ≤ 1 ∨ |recoverN p| ≤ 1
        ∨ (p.m > 1 ∧ recoverN p < -1) ∨ (p.m < -1 ∧ recoverN p > 1)) →
      (recoverSpacePoint p cfg).1 = false)
    ∧ (¬(|vertexM cfg e| ≤ effLimit cfg ∧ |(solverParams cfg e).n| ≤ effLimit cfg) →
        (|(solverParams cfg e).m| ≤ 1 ∨ |recoverN (solverParams cfg e)| ≤ 1
          ∨ ((solverParams cfg e).m > 1 ∧ recoverN (solverParams cfg e) < -1)
          ∨ ((solverParams cfg e).m < -1 ∧ recoverN (solverParams cfg e) > 1)) →
        vertexSolve cfg e = none) := by
  refine ⟨recover_fails_without_same_direction_overshoot cfg p, fun hrej hcase => ?_⟩
  rw [vertexSolve, if_neg hrej, if_neg]
  rw [recover_fails_without_same_direction_overshoot cfg (solverParams cfg e) hcase]
  exact Bool.false_ne_true

/-- C7 witness: the failure theorem applied to a state with opposite
overshoots m = 21/20, n = -21/20, and to strips solving to m = 3/2,
n = -3/2, whose candidate stays unset. -/
theorem C7_opposite_or_in_bounds_fails_witness :
    (recoverSpacePoint pOpp cfgTol).1 = false ∧ vertexSolve cfgTol eOpp = none := by
  have hrnOpp : recoverN pOpp = -(21/20) := by
    rw [recoverN, if_neg (by norm_num [pOpp])]
    norm_num [pOpp]
  have hpart1 := (C7_opposite_or_in_bounds_fails cfgTol pOpp eOpp).1
    (Or.inr (Or.inr (Or.inl ⟨by norm_num [pOpp], by rw [hrnOpp]; norm_num⟩)))
  have hm : vertexM cfgTol eOpp = 3/2 := by
    norm_num [vertexM, sVec, tVec, rtVec, cfgTol, mkCfg, eOpp]
  have hlimit : effLimit cfgTol = 6/5 := by norm_num [effLimit, cfgTol, mkCfg]
  have hpm : (solverParams cfgTol eOpp).m = 3/2 := by
    simp only [solverParams]; exact hm
  have hpn : (solverParams cfgTol eOpp).n = 0 := by
    simp only [solverParams]
    rw [if_neg]
    rw [hm, hlimit]
    norm_num [abs_of_nonneg]
  have hrn2 : recoverN (solverParams cfgTol eOpp) = -(3/2) := by
    rw [recoverN, if_pos hpn]
    simp only [solverParams]
    norm_num [tVec, qsVec, sVec, cfgTol, mkCfg, eOpp]
  have hrej : ¬(|vertexM cfgTol eOpp| ≤ effLimit cfgTol
      ∧ |(solverParams cfgTol eOpp).n| ≤ effLimit cfgTol) := by
    rintro ⟨habs, -⟩
    rw [hm, hlimit, abs_of_nonneg (by norm_num : (0:ℝ) ≤ 3/2)] at habs
    linarith
  have hpart2 := (C7_opposite_or_in_bounds_fails cfgTol (solverParams cfgTol eOpp) eOpp).2
    hrej
    (Or.inr (Or.inr (Or.inl ⟨by rw [hpm]; norm_num, by rw [hrn2]; norm_num⟩)))
  exact ⟨hpart1, hpart2⟩

/- ===================== Claim C9 ========================================= -/

/-- Invariant of the best-score scan: any property holding of the initial
best and of every nonnegative score at its index holds of the result. -/
theorem scanFrom_inv (scores : List ℝ) :
    ∀ (best : Option (ℝ × Nat)) (idx : Nat) (P : ℝ → Nat → Prop),
    (∀ d i, best = some (d, i) → P d i) →
    (∀ k, ∀ hk : k < scores.length, 0 ≤ scores.get ⟨k, hk⟩ →
      P (scores.get ⟨k, hk⟩) (idx + k)) →
    ∀ d i, scanFrom best idx scores = some (d, i) → P d i := by
  induction scores with
  | nil =>
    intro best idx P hbest _ d i hres
    exact hbest d i hres
  | cons sc rest ih =>
    intro best idx P hbest hscore d i hres
    rw [scanFrom] at hres
    refine ih (scanStep best idx sc) (idx + 1) P ?_ ?_ d i hres
    · intro d2 i2 hstep
      cases best with
      | none =>
        have hstep2 : (if (0:ℝ) ≤ sc then some (sc, idx) else none) = some (d2, i2) :=
          hstep
        by_cases h0 : (0:ℝ) ≤ sc
        · rw [if_pos h0] at hstep2
          cases hstep2
          have := hscore 0 (by simp) (by simpa using h0)
          simpa using this
        · rw [if_neg h0] at hstep2
          cases hstep2
      | some b =>
        have hstep2 : (if sc < b.1 ∧ (0:ℝ) ≤ sc then some (sc, idx) else some b)
            = some (d2, i2) := hstep
        by_cases hc : sc < b.1 ∧ (0:ℝ) ≤ sc
        · rw [if_pos hc] at hstep2
          cases hstep2
          have := hscore 0 (by simp) (by simpa using hc.2)
          simpa using this
        · rw [if_neg hc] at hstep2
          cases hstep2
          exact hbest d2 i2 rfl
    · intro k hk h0
      have hk1 : k + 1 < (sc :: rest).length := by simpa using Nat.succ_lt_succ hk
      have := hscore (k + 1) hk1 (by simpa using h0)
      have harith : idx + (k + 1) = idx + 1 + k := by omega
      rw [harith] at this
      simpa using this

/-- C9: a back cluster farther than diffDist from the front cluster point
scores the sentinel -1 in differenceOfHits, whatever the angular accessors
are, and the scan of addHits, which only accepts nonnegative scores below
the running minimum, never selects it. -/
theorem C9_distant_back_cluster_never_selected (phi theta : V3 → ℝ)
    (cfg : DoubleHitSpacePointConfig) (front : V3) (backs : List V3) (j : Nat)
    (hj : j < backs.length)
    (hdist : V3.mag (front - backs.get ⟨j, hj⟩) > cfg.diffDist) :
    differenceOfHits phi theta front (backs.get ⟨j, hj⟩) cfg = -1
    ∧ selectBackFor phi theta cfg front backs ≠ some j := by
  have hdiff : differenceOfHits phi theta front (backs.get ⟨j, hj⟩) cfg = -1 := by
    rw [differenceOfHits, if_pos hdist]
  refine ⟨hdiff, fun hsel => ?_⟩
  rw [selectBackFor, selectClosestBack] at hsel
  rw [Option.map_eq_some'] at hsel
  obtain ⟨⟨d, i⟩, hscan, hi⟩ := hsel
  have hP := scanFrom_inv (backs.map fun b => differenceOfHits phi theta front b cfg)
    none 0
    (fun d i => 0 ≤ d ∧ (backs.map fun b => differenceOfHits phi theta front b cfg).get? i
      = some d)
    (fun _ _ h => by cases h)
    (fun k hk h0 => ⟨h0, by rw [Nat.zero_add, List.get?_eq_get hk]⟩)
    d i hscan
  have hij : i = j := hi
  rw [hij] at hP
  have hjlen : j < (backs.map fun b => differenceOfHits phi theta front b cfg).length := by
    simpa using hj
  rw [List.get?_eq_get hjlen] at hP
  have hval : (backs.map fun b => differenceOfHits phi theta front b cfg).get ⟨j, hjlen⟩
      = -1 := by
    rw [List.get_map]
    exact hdiff
  rw [hval] at hP
  obtain ⟨h0, hsome⟩ := hP
  have : d = -1 := by injection hsome.symm
  rw [this] at h0
  linarith

/-- C9 witness: with diffDist 1, a back cluster at distance 3 scores -1 and
is not selected, for the trivial angular accessors. -/
theorem C9_distant_back_cluster_never_selected_witness :
    differenceOfHits angZero angZero frontW (V3.mk 3 0 0) cfgC9 = -1
    ∧ selectBackFor angZero angZero cfgC9 frontW backsW ≠ some 0 := by
  have hdist : V3.mag (frontW - backsW.get ⟨0, by norm_num [backsW]⟩) > cfgC9.diffDist := by
    have hsub : frontW - backsW.get ⟨0, by norm_num [backsW]⟩ = V3.mk (-3) 0 0 := by
      norm_num [frontW, backsW]
    rw [hsub, V3.mag_mk, show ((-3) * (-3) + 0 * 0 + 0 * 0 : ℝ) = 9 by norm_num, sqrt_nine]
    norm_num [cfgC9]
  have h := C9_distant_back_cluster_never_selected angZero angZero cfgC9 frontW backsW 0
    (by norm_num [backsW]) hdist
  exact ⟨h.1, h.2⟩

/- ===================== Claim C8 ========================================= -/

/-- C8 (counterexample): with clustering disabled, hits from two different
surfaces are not rejected: every hit becomes its own cluster and the output
is not empty. -/
theorem C8_disabled_clustering_ignores_surfaces_counterexample :
    (geoC8 1).surface ≠ (geoC8 0).surface
    ∧ clusterSpacePoints geoC8 1 1 [0, 1] false = [⟨0, none⟩, ⟨1, none⟩]
    ∧ ([⟨0, none⟩, ⟨1, none⟩] : List ClusterPair) ≠ [] :=
  ⟨by decide, by decide, by decide⟩

/-- C8 amended: with clustering enabled, hits spanning more than one
surface make the surface check of sortHits fail, and the clustering call
returns the empty cluster set. -/
theorem C8_multi_surface_clustering_empty (geo : Hit → HitGeom) (nX nY : Nat)
    (hits : List Hit)
    (hmix : ∃ h ∈ hits, (geo h).surface ≠ (geo (hits.headD 0)).surface) :
    clusterSpacePoints geo nX nY hits true = [] := by
  obtain ⟨h, hmem, hne⟩ := hmix
  have hlen : ¬ hits.length = 1 := by
    intro hlen1
    obtain ⟨a, ha⟩ := List.length_eq_one.mp hlen1
    rw [ha] at hmem hne
    simp only [List.mem_singleton] at hmem
    rw [hmem] at hne
    simp at hne
  have hall : (hits.all fun h2 => (geo h2).surface == (geo (hits.headD 0)).surface)
      = false := by
    refine Bool.eq_false_iff.mpr fun htrue => ?_
    rw [List.all_eq_true] at htrue
    have := htrue h hmem
    simp only [beq_iff_eq] at this
    exact hne this
  have hsort : sortHits geo nX nY hits = none := by
    rw [sortHits, if_neg]
    rw [hall]
    exact Bool.false_ne_true
  rw [clusterSpacePoints, if_neg hlen, if_pos rfl, hsort]

/-- C8 witness: the enabled-clustering rejection applied at two hits on two
surfaces. -/
theorem C8_multi_surface_clustering_empty_witness :
    clusterSpacePoints geoC8 1 1 [0, 1] true = [] :=
  C8_multi_surface_clustering_empty geoC8 1 1 [0, 1] ⟨1, by decide, by decide⟩

/- ===================== Claim C4 ========================================= -/

/-- C4 (counterexample): hits 0 and 1 on one surface, at cells (2,0) and
(0,1) of a 3 x 2 matrix, produce three clusters: hit 0 appears in two of
them, and the two-hit cluster pairs two cells that do not share an edge. -/
theorem C4_not_a_partition_counterexample :
    clusterSpacePoints geoC4 3 2 [0, 1] true
      = [⟨0, none⟩, ⟨0, some 1⟩, ⟨1, none⟩]
    ∧ (clusterSpacePoints geoC4 3 2 [0, 1] true).countP (fun cl => containsHit cl 0) = 2
    ∧ (⟨0, some 1⟩ : ClusterPair) ∈ clusterSpacePoints geoC4 3 2 [0, 1] true
    ∧ binAdjacent (geoC4 0) (geoC4 1) = false
    ∧ (geoC4 0).surface = (geoC4 1).surface :=
  ⟨by decide, by decide, by decide, by decide, by decide⟩

/-- Filling the matrix leaves a cell unchanged when no hit is binned there. -/
theorem fold_fill_pres (geo : Hit → HitGeom) :
    ∀ (hits : List Hit) (f : Nat → Nat → Option Hit) (x y : Nat),
    (∀ h2 ∈ hits, ¬(x = (geo h2).binX ∧ y = (geo h2).binY)) →
    hits.foldl (fun f h => fun x2 y2 =>
      if x2 = (geo h).binX ∧ y2 = (geo h).binY then some h else f x2 y2) f x y = f x y := by
  intro hits
  induction hits with
  | nil => intro f x y _; rfl
  | cons h0 rest ih =>
    intro f x y hnone
    have hstep := ih (fun x2 y2 =>
      if x2 = (geo h0).binX ∧ y2 = (geo h0).binY then some h0 else f x2 y2) x y
      (fun h2 hm => hnone h2 (List.mem_cons_of_mem h0 hm))
    rw [List.foldl_cons, hstep]
    show (if x = (geo h0).binX ∧ y = (geo h0).binY then some h0 else f x y) = f x y
    exact if_neg (hnone h0 (List.mem_cons_self h0 rest))

/-- A hit whose bin pair no other hit occupies ends up in its cell of the
filled matrix. -/
theorem fold_fill_cell (geo : Hit → HitGeom) :
    ∀ (hits : List Hit) (f : Nat → Nat → Option Hit) (h : Hit), h ∈ hits →
    (∀ h2 ∈ hits, (geo h2).binX = (geo h).binX → (geo h2).binY = (geo h).binY → h2 = h) →
    hits.foldl (fun f h => fun x2 y2 =>
      if x2 = (geo h).binX ∧ y2 = (geo h).binY then some h else f x2 y2) f
      (geo h).binX (geo h).binY = some h := by
  intro hits
  induction hits with
  | nil => intro f h hm; cases hm
  | cons h0 rest ih =>
    intro f h hmem huniq
    rw [List.foldl_cons]
    by_cases hmemr : h ∈ rest
    · exact ih _ h hmemr (fun h2 hm e1 e2 => huniq h2 (List.mem_cons_of_mem h0 hm) e1 e2)
    · have hh0 : h = h0 := by
        rcases List.mem_cons.mp hmem with he | hr
        · exact he
        · exact absurd hr hmemr
      subst hh0
      have hrest : ∀ h2 ∈ rest, ¬((geo h).binX = (geo h2).binX ∧ (geo h).binY = (geo h2).binY) := by
        rintro h2 hm ⟨e1, e2⟩
        exact hmemr ((huniq h2 (List.mem_cons_of_mem h hm) e1.symm e2.symm) ▸ hm)
      rw [fold_fill_pres geo rest _ _ _ hrest, if_pos ⟨rfl, rfl⟩]

/-- One scan step covers every hit already covered and the hit of the cell
it consumes. -/
theorem stepCell_covers (b : Bool) (st : ScanState) (cell : Option Hit) (h : Hit)
    (hin : (∃ c ∈ st.acc, containsHit c h = true) ∨ st.cur = some h ∨ cell = some h) :
    (∃ c ∈ (stepCell b st cell).acc, containsHit c h = true)
    ∨ (stepCell b st cell).cur = some h := by
  obtain ⟨cur, acc⟩ := st
  rcases cell with _ | hc
  · rcases cur with _ | f
    · rcases hin with hacc | hcur | hcell
      · exact Or.inl hacc
      · cases hcur
      · cases hcell
    · rcases hin with ⟨c, hm, hc2⟩ | hcur | hcell
      · exact Or.inl ⟨c, List.mem_append_left _ hm, hc2⟩
      · have hf : f = h := by injection hcur
        subst hf
        exact Or.inl ⟨⟨f, none⟩, List.mem_append_right _ (List.mem_singleton.mpr rfl),
          by simp [containsHit]⟩
      · cases hcell
  · rcases cur with _ | f
    · rcases hin with hacc | hcur | hcell
      · cases b
        · exact Or.inl hacc
        · exact Or.inl ⟨_, List.mem_append_left _ (by exact hacc.choose_spec.1), hacc.choose_spec.2⟩
      · cases hcur
      · have hch : hc = h := by injection hcell
        subst hch
        cases b
        · exact Or.inr rfl
        · exact Or.inr rfl
    · rcases hin with ⟨c, hm, hc2⟩ | hcur | hcell
      · exact Or.inl ⟨c, List.mem_append_left _ hm, hc2⟩
      · have hf : f = h := by injection hcur
        subst hf
        exact Or.inl ⟨⟨f, some hc⟩, List.mem_append_right _ (List.mem_singleton.mpr rfl),
          by simp [containsHit]⟩
      · have hch : hc = h := by injection hcell
        subst hch
        exact Or.inl ⟨⟨f, some hc⟩, List.mem_append_right _ (List.mem_singleton.mpr rfl),
          by simp [containsHit]⟩

/-- Scanning a line covers everything previously covered and every hit
occupying a cell of the line. -/
theorem scanLine_covers (line : List (Option Hit)) :
    ∀ (st : ScanState) (h : Hit),
    ((∃ c ∈ st.acc, containsHit c h = true) ∨ st.cur = some h ∨ some h ∈ line) →
    (∃ c ∈ (scanLine st line).acc, containsHit c h = true)
    ∨ (scanLine st line).cur = some h := by
  induction line with
  | nil =>
    intro st h hin
    rcases hin with hacc | hcur | hmem
    · exact Or.inl hacc
    · exact Or.inr hcur
    · cases hmem
  | cons c rest ih =>
    intro st h hin
    cases rest with
    | nil =>
      show (∃ cl ∈ (stepCell true st c).acc, containsHit cl h = true)
        ∨ (stepCell true st c).cur = some h
      refine stepCell_covers true st c h ?_
      rcases hin with hacc | hcur | hmem
      · exact Or.inl hacc
      · exact Or.inr (Or.inl hcur)
      · exact Or.inr (Or.inr (List.mem_singleton.mp hmem).symm)
    | cons c2 rest2 =>
      show (∃ cl ∈ (scanLine (stepCell false st c) (c2 :: rest2)).acc, containsHit cl h = true)
        ∨ (scanLine (stepCell false st c) (c2 :: rest2)).cur = some h
      refine ih (stepCell false st c) h ?_
      rcases hin with hacc | hcur | hmem
      · rcases stepCell_covers false st c h (Or.inl hacc) with h1 | h2
        · exact Or.inl h1
        · exact Or.inr (Or.inl h2)
      · rcases stepCell_covers false st c h (Or.inr (Or.inl hcur)) with h1 | h2
        · exact Or.inl h1
        · exact Or.inr (Or.inl h2)
      · rcases List.mem_cons.mp hmem with he | hr
        · rcases stepCell_covers false st c h (Or.inr (Or.inr he.symm)) with h1 | h2
          · exact Or.inl h1
          · exact Or.inr (Or.inl h2)
        · exact Or.inr (Or.inr hr)

/-- After scanning a nonempty line, a pending first hit has already been
emitted in some cluster: the final cell of a line always flushes. -/
theorem scanLine_cur_flushed (line : List (Option Hit)) (hne : line ≠ []) :
    ∀ (st : ScanState) (h : Hit),
    (scanLine st line).cur = some h →
    ∃ c ∈ (scanLine st line).acc, containsHit c h = true := by
  induction line with
  | nil => exact absurd rfl hne
  | cons c rest ih =>
    intro st h
    cases rest with
    | nil =>
      show (stepCell true st c).cur = some h →
        ∃ cl ∈ (stepCell true st c).acc, containsHit cl h = true
      intro hcur
      obtain ⟨cur, acc⟩ := st
      rcases c with _ | hc
      · rcases cur with _ | f
        · cases hcur
        · have : (none : Option Hit) = some h := hcur
          cases this
      · rcases cur with _ | f
        · have hch : hc = h := by
            have : (some hc : Option Hit) = some h := hcur
            injection this
          subst hch
          exact ⟨⟨hc, none⟩, List.mem_append_right _ (List.mem_singleton.mpr rfl),
            by simp [containsHit]⟩
        · have hch : hc = h := by
            have : (some hc : Option Hit) = some h := hcur
            injection this
          subst hch
          exact ⟨⟨f, some hc⟩, List.mem_append_right _ (List.mem_singleton.mpr rfl),
            by simp [containsHit]⟩
    | cons c2 rest2 =>
      exact fun hcur => ih (by simp) (stepCell false st c) h hcur

/-- The full matrix scan covers every hit occupying some cell of the lines. -/
theorem foldl_scan_covers (lines : List (List (Option Hit))) :
    ∀ (st : ScanState) (h : Hit),
    ((∃ c ∈ st.acc, containsHit c h = true) ∨ st.cur = some h
      ∨ ∃ line ∈ lines, some h ∈ line) →
    (∃ c ∈ (lines.foldl scanLine st).acc, containsHit c h = true)
    ∨ (lines.foldl scanLine st).cur = some h := by
  induction lines with
  | nil =>
    intro st h hin
    rcases hin with hacc | hcur | ⟨line, hm, _⟩
    · exact Or.inl hacc
    · exact Or.inr hcur
    · cases hm
  | cons l rest ih =>
    intro st h hin
    rw [List.foldl_cons]
    refine ih (scanLine st l) h ?_
    rcases hin with hacc | hcur | ⟨line, hm, hmem⟩
    · rcases scanLine_covers l st h (Or.inl hacc) with h1 | h2
      · exact Or.inl h1
      · exact Or.inr (Or.inl h2)
    · rcases scanLine_covers l st h (Or.inr (Or.inl hcur)) with h1 | h2
      · exact Or.inl h1
      · exact Or.inr (Or.inl h2)
    · rcases List.mem_cons.mp hm with he | hr
      · rcases scanLine_covers l st h (Or.inr (Or.inr (he ▸ hmem))) with h1 | h2
        · exact Or.inl h1
        · exact Or.inr (Or.inl h2)
      · exact Or.inr (Or.inr ⟨line, hr, hmem⟩)

/-- After scanning all lines (each nonempty, at least one line), a pending
first hit has been emitted. -/
theorem foldl_scan_flushed (lines : List (List (Option Hit))) :
    lines ≠ [] → (∀ line ∈ lines, line ≠ []) →
    ∀ (st : ScanState) (h : Hit),
    (lines.foldl scanLine st).cur = some h →
    ∃ c ∈ (lines.foldl scanLine st).acc, containsHit c h = true := by
  induction lines with
  | nil => exact fun hne => absurd rfl hne
  | cons l rest ih =>
    intro _ hall st h
    cases rest with
    | nil =>
      intro hcur
      exact scanLine_cur_flushed l (hall l (List.mem_cons_self l [])) st h hcur
    | cons l2 rest2 =>
      intro hcur
      exact ih (by simp) (fun line hm => hall line (List.mem_cons_of_mem l hm))
        (scanLine st l) h hcur

/-- Every hit sitting in a cell of the scanned lines appears in some
emitted cluster. -/
theorem clusterMatrix_covers (lines : List (List (Option Hit)))
    (hne : lines ≠ []) (hall : ∀ line ∈ lines, line ≠ []) (h : Hit)
    (hin : ∃ line ∈ lines, some h ∈ line) :
    ∃ c ∈ clusterMatrix lines, containsHit c h = true := by
  rw [clusterMatrix]
  rcases foldl_scan_covers lines ⟨none, []⟩ h (Or.inr (Or.inr hin)) with h1 | h2
  · exact h1
  · exact foldl_scan_flushed lines hne hall ⟨none, []⟩ h h2

/-- C4 amended: with clustering enabled and a well-formed single-surface
input (bins in range, no two hits in one cell), every cluster holds at most
two hits and every input hit appears in at least one output cluster; the
partition and adjacency parts of the original claim fail (a hit consumed as
a secondary is re-emitted as the next primary, and a pair can straddle a
scan-line boundary). -/
theorem C4_clusters_cover_hits (geo : Hit → HitGeom) (nX nY : Nat) (hits : List Hit)
    (hsurf : ∀ h ∈ hits, (geo h).surface = (geo (hits.headD 0)).surface)
    (hrange : ∀ h ∈ hits, (geo h).binX < nX ∧ (geo h).binY < nY)
    (hinj : ∀ h1 ∈ hits, ∀ h2 ∈ hits,
      (geo h1).binX = (geo h2).binX → (geo h1).binY = (geo h2).binY → h1 = h2) :
    (∀ cl ∈ clusterSpacePoints geo nX nY hits true, clusterHitCount cl ≤ 2)
    ∧ ∀ h ∈ hits,
        (clusterSpacePoints geo nX nY hits true).any (fun cl => containsHit cl h) = true := by
  constructor
  · rintro ⟨f, _ | sc⟩ _ <;> simp [clusterHitCount]
  intro h hmem
  rw [List.any_eq_true]
  by_cases hlen : hits.length = 1
  · obtain ⟨a, ha⟩ := List.length_eq_one.mp hlen
    subst ha
    have hha : h = a := List.mem_singleton.mp hmem
    subst hha
    refine ⟨⟨h, none⟩, ?_, by simp [containsHit]⟩
    rw [clusterSpacePoints, if_pos hlen]
    exact List.mem_singleton.mpr rfl
  · have hall : (hits.all fun h2 => (geo h2).surface == (geo (hits.headD 0)).surface)
        = true :=
      List.all_eq_true.mpr fun h2 hm => beq_iff_eq.mpr (hsurf h2 hm)
    have hsort : sortHits geo nX nY hits = some ⟨nX, nY, fillMatrix geo hits⟩ := by
      rw [sortHits, if_pos hall]
    have hx := (hrange h hmem).1
    have hy := (hrange h hmem).2
    have hnx : ¬ nX = 0 := by omega
    have hcell : fillMatrix geo hits (geo h).binX (geo h).binY = some h :=
      fold_fill_cell geo hits _ h hmem
        (fun h2 hm e1 e2 => hinj h2 hm h hmem e1 e2)
    have hcov : ∃ c ∈ clusterMatrix (linesOf ⟨nX, nY, fillMatrix geo hits⟩),
        containsHit c h = true := by
      rw [linesOf]
      by_cases hdim : nX > nY
      · rw [if_pos hdim]
        have hny : 0 < nY := by omega
        refine clusterMatrix_covers _ ?_ ?_ h ?_
        · simp only [ne_eq, List.map_eq_nil_iff, List.range_eq_nil]
          omega
        · intro line hm
          obtain ⟨iY, _, rfl⟩ := List.mem_map.mp hm
          simp only [ne_eq, List.map_eq_nil_iff, List.range_eq_nil]
          omega
        · refine ⟨(List.range nX).map
            (fun iX => fillMatrix geo hits iX (geo h).binY), ?_, ?_⟩
          · exact List.mem_map.mpr ⟨(geo h).binY, List.mem_range.mpr hy, rfl⟩
          · exact List.mem_map.mpr ⟨(geo h).binX, List.mem_range.mpr hx, hcell⟩
      · rw [if_neg hdim]
        refine clusterMatrix_covers _ ?_ ?_ h ?_
        · simp only [ne_eq, List.map_eq_nil_iff, List.range_eq_nil]
          omega
        · intro line hm
          obtain ⟨iX, _, rfl⟩ := List.mem_map.mp hm
          simp only [ne_eq, List.map_eq_nil_iff, List.range_eq_nil]
          omega
        · refine ⟨(List.range nY).map
            (fun iY => fillMatrix geo hits (geo h).binX iY), ?_, ?_⟩
          · exact List.mem_map.mpr ⟨(geo h).binX, List.mem_range.mpr hx, rfl⟩
          · exact List.mem_map.mpr ⟨(geo h).binY, List.mem_range.mpr hy, hcell⟩
    obtain ⟨c, hcm, hch⟩ := hcov
    refine ⟨c, ?_, hch⟩
    rw [clusterSpacePoints, if_neg hlen, if_pos rfl, hsort]
    show c ∈ (if nX = 0 then [] else clusterMatrix (linesOf ⟨nX, nY, fillMatrix geo hits⟩))
    rw [if_neg hnx]
    exact hcm

/-- C4 witness: the coverage theorem applied at the two-hit example; both
hits appear in the emitted clusters. -/
theorem C4_clusters_cover_hits_witness :
    (clusterSpacePoints geoC4 3 2 [0, 1] true).any (fun cl => containsHit cl 0) = true
    ∧ (clusterSpacePoints geoC4 3 2 [0, 1] true).any (fun cl => containsHit cl 1) = true :=
  ⟨(C4_clusters_cover_hits geoC4 3 2 [0, 1] (by decide) (by decide) (by decide)).2
      0 (by decide),
   (C4_clusters_cover_hits geoC4 3 2 [0, 1] (by decide) (by decide) (by decide)).2
      1 (by decide)⟩
